import Mathlib

/-!
Verification of the tableau-auto synchronization scripts.

The definitions below are shallow embeddings of the Python sources
ad2tabsync.py, tableausync.py, hrms_report_sender.py,
clean_tableau_permissions.py and rm_guest_allusers_from_permissions.py.
The theorems settle the specification claims about those scripts.
-/

namespace ADSync

/-- Directory entry as returned by the LDAP searches of ad2tabsync.py
(attributes distinguishedName, sAMAccountName, objectCategory, member).
The enabled field models the outcome of the point-in-time filter used by
AD._is_user_enabled: the search returns a nonempty response exactly when
the account is neither expired nor disabled. -/
structure ADObject where
  dn : String
  sAMAccountName : String
  objectCategory : String
  enabled : Bool
  member : List String
deriving DecidableEq

/-- Directory snapshot: the finite collection of entries the directory
server would return during one run.  Lookups key on the distinguished
name. -/
abbrev Snapshot := List ADObject

/-- Model of AD._get_object_data: a base-scope search on the distinguished
name, returning the first matching entry when present. -/
def getObjectData (snap : Snapshot) (dn : String) : Option ADObject :=
  snap.find? (fun o => o.dn = dn)

/-- Python str.startswith, computed on the character lists so that the
kernel can evaluate it on concrete inputs. -/
def strStartsWith (s pre : String) : Bool :=
  pre.data.isPrefixOf s.data

/-- Test used at ad2tabsync.py line 169: objectCategory starts with the
text CN=Person. -/
def isPerson (o : ADObject) : Bool :=
  strStartsWith o.objectCategory "CN=Person"

/-- Test used at ad2tabsync.py line 173: objectCategory starts with the
text CN=Group. -/
def isGroup (o : ADObject) : Bool :=
  strStartsWith o.objectCategory "CN=Group"

/-- Model of AD._is_user_enabled (ad2tabsync.py lines 181-186): the
filtered base search on the distinguished name is nonempty exactly when
the entry exists and its account is enabled. -/
def is_user_enabled (snap : Snapshot) (dn : String) : Bool :=
  match getObjectData snap dn with
  | some o => o.enabled
  | none => false

/-- Model of the list comprehension at ad2tabsync.py lines 176-178: every
user of a recursive result is appended unless some already-collected user
carries the same sAMAccountName; the duplicate check is re-evaluated
against the growing accumulator, exactly as the Python comprehension
re-reads the mutating users list. -/
def mergeUsers (users newusers : List ADObject) : List ADObject :=
  newusers.foldl
    (fun us nu =>
      if us.any (fun u => u.sAMAccountName = nu.sAMAccountName) then us
      else us ++ [nu])
    users

/-- Model of the person branch at ad2tabsync.py lines 169-172: a person
entry is appended when no collected user has the same sAMAccountName and
the account is enabled. -/
def personStep (snap : Snapshot) (users : List ADObject) (obj : ADObject) :
    List ADObject :=
  if isPerson obj
      && !(users.any (fun u => u.sAMAccountName = obj.sAMAccountName))
      && is_user_enabled snap obj.dn
  then users ++ [obj] else users


/-- Model of the member for-loop body of AD._get_group_members, threading
the users accumulator and the shared group_list.  Person entries are
appended through personStep; group entries not yet in group_list are first
recorded there and then expanded through the given expand function (the
recursive call at one less fuel), the expansion result being merged with
the duplicate guard of mergeUsers. -/
def membersLoopAux
    (expand : String → List String → Option (List ADObject × List String))
    (snap : Snapshot) : List String → List ADObject → List String →
    Option (List ADObject × List String)
  | [], users, group_list => some (users, group_list)
  | m :: rest, users, group_list =>
    match getObjectData snap m with
    | none => membersLoopAux expand snap rest users group_list
    | some obj =>
      if isGroup obj && !(decide (obj.dn ∈ group_list)) then
        match expand obj.dn (group_list ++ [obj.dn]) with
        | none => none
        | some (newusers, gl2) =>
            membersLoopAux expand snap rest
              (mergeUsers (personStep snap users obj) newusers) gl2
      else membersLoopAux expand snap rest (personStep snap users obj) group_list

/-- Model of AD._get_group_members (ad2tabsync.py lines 162-179, identical
algorithm at tableausync.py lines 71-88).  The Python group_list parameter
is a list mutated in place, also by the recursive calls, so it is threaded
as state and returned next to the collected users.  The fuel argument
bounds the recursion depth; the value none marks a recursion that has not
returned within the given fuel (the theorems below show fuel expansionFuel
always suffices).  A member distinguished name that does not resolve in
the snapshot is skipped. -/
def get_group_members : Nat → Snapshot → String → List String →
    Option (List ADObject × List String)
  | 0, _, _, _ => none
  | f + 1, snap, dn, group_list =>
    match getObjectData snap dn with
    | none => some ([], group_list)
    | some g =>
      if g.member.isEmpty then some ([], group_list)
      else membersLoopAux (get_group_members f snap) snap g.member [] group_list

/-- Number of group entries of the snapshot whose distinguished name is
not yet recorded in the visited list: the quantity that shrinks at every
recursive group expansion. -/
def freshGroups (snap : Snapshot) (group_list : List String) : Nat :=
  (snap.filter (fun o => isGroup o && !(decide (o.dn ∈ group_list)))).length

/-- Fuel that always suffices for one full expansion: one more than the
number of group entries of the snapshot. -/
def expansionFuel (snap : Snapshot) : Nat := freshGroups snap [] + 1

/-- Model of AD.get_members_by_groupname (ad2tabsync.py lines 229-233):
the public entry point expands from the distinguished name of the group
with whatever contents the default group_list argument currently has.
Python evaluates that default to a fresh empty list once, at function
definition time, and every call without an explicit argument shares and
mutates that same list object; the state argument is the contents of the
shared default list at call time. -/
def get_members_by_groupname (snap : Snapshot) (state : List String)
    (dn : String) : Option (List ADObject × List String) :=
  get_group_members (expansionFuel snap) snap dn state

/-- Account names of a collected user list are pairwise distinct. -/
def namesNodup (us : List ADObject) : Prop :=
  (us.map (fun u => u.sAMAccountName)).Nodup

/-- Demonstration snapshot: site group A holds person p1 and nested group
B, and B holds person p2; everyone enabled. -/
def demoSnap : Snapshot :=
  [ { dn := "A", sAMAccountName := "A", objectCategory := "CN=Group",
      enabled := true, member := ["u1", "B"] },
    { dn := "B", sAMAccountName := "B", objectCategory := "CN=Group",
      enabled := true, member := ["u2"] },
    { dn := "u1", sAMAccountName := "p1", objectCategory := "CN=Person",
      enabled := true, member := [] },
    { dn := "u2", sAMAccountName := "p2", objectCategory := "CN=Person",
      enabled := true, member := [] } ]

end ADSync

namespace Ad2Tab

/-- Workbook row as populated by tab.users.populate_workbooks: only the
owner id matters to the stale-user branch. -/
structure Workbook where
  name : String
  owner_id : String
deriving DecidableEq

/-- Target-system user row as returned through TSC.Pager over tab.users. -/
structure TUser where
  id : String
  name : String
  site_role : String
  workbooks : List Workbook
deriving DecidableEq

/-- Visible effect of one step of the user phase on the target system or
the mail channel. -/
inductive SyncAction where
  | sendMailOldSA (name : String)
  | updateRole (name : String) (role : String)
  | removeUser (id : String)
  | createUser (name : String) (role : String)
deriving DecidableEq

/-- Outcome the target system gives the users.remove call: none for
success, some code for a ServerResponseError carrying that fault code. -/
abbrev RemoveOutcome := Option String

/-- Model of the per-user body of the old-user loop of
AD2TabSync._sync_site_user (ad2tabsync.py lines 279-306) in live mode (the
script stores self.noop as the negation of the dry-run flag, so live runs
execute every guarded call).  The ok value records the mutations issued;
an error value models an uncaught ServerResponseError with that fault
code.  A remove fault with code 409003 is swallowed and the user is logged
as removed. -/
def syncOldUser (u : TUser) (removeOutcome : RemoveOutcome) :
    Except String (List SyncAction) :=
  if u.site_role = "ServerAdministrator" then
    Except.ok [SyncAction.sendMailOldSA u.name]
  else
    let user_workbooks := u.workbooks.filter (fun b => b.owner_id = u.id)
    if user_workbooks.length > 0 then
      if ¬ u.site_role = "Unlicensed" then
        Except.ok [SyncAction.updateRole u.name "Unlicensed"]
      else
        Except.ok []
    else
      match removeOutcome with
      | none => Except.ok [SyncAction.removeUser u.id]
      | some code =>
        if ¬ code = "409003" then Except.error code
        else Except.ok [SyncAction.removeUser u.id]

/-- Model of the stale-name computation of AD2TabSync._sync_site_user
(ad2tabsync.py lines 263-272): target names minus directory names minus
service accounts, with the ERS carve-out forcing the stale list empty.
Python set differences are modelled as deduplicated filtered lists. -/
def old_users (site_name : String)
    (tableau_names ad_names service : List String) : List String :=
  if site_name = "ERS" then []
  else (tableau_names.filter (fun n => ¬ n ∈ ad_names ∧ ¬ n ∈ service)).dedup

/-- Model of the fresh-name computation of AD2TabSync._sync_site_user
(ad2tabsync.py lines 265-266): directory names minus the names of ALL
target users of the site, licensed or not, minus service accounts. -/
def new_users (tableau_names ad_names service : List String) : List String :=
  (ad_names.filter (fun n => ¬ n ∈ tableau_names ∧ ¬ n ∈ service)).dedup

/-- Model of the per-name body of the fresh-user loop of
AD2TabSync._sync_site_user (ad2tabsync.py lines 308-327), live mode: the
promote test asks whether some target user with a role other than
Unlicensed carries the name; otherwise a fresh Interactor user is
created. -/
def sync_new_user (tableau_all_site_users : List TUser) (name : String) :
    SyncAction :=
  if name ∈ (tableau_all_site_users.filter
      (fun u => ¬ u.site_role = "Unlicensed")).map (fun u => u.name) then
    SyncAction.updateRole name "Interactor"
  else
    SyncAction.createUser name "Interactor"

/-- Persisted SendMail.pickle state: account name mapped to the day the
last notification about it was sent.  Dates are modelled at day
granularity, matching the comparison of timedelta.days with 3. -/
abbrev SentState := List (String × Int)

def lookupSent (st : SentState) (name : String) : Option Int :=
  (st.find? (fun p => p.1 = name)).map (fun p => p.2)

def setSent (st : SentState) (name : String) (d : Int) : SentState :=
  (name, d) :: st.filter (fun p => ¬ p.1 = name)

/-- Model of SendMail.send_mail_old_serveradministrator (ad2tabsync.py
lines 83-98): returns whether a mail was sent together with the state
written back to the pickle. -/
def send_mail_old_serveradministrator (st : SentState) (name : String)
    (current_date : Int) : Bool × SentState :=
  match lookupSent st name with
  | some last =>
    if current_date - last > 3 then (true, setSent st name current_date)
    else (false, st)
  | none => (true, setSent st name current_date)

/-- Model of the diff portion of AD2TabSync._sync_site_groups
(ad2tabsync.py lines 349-360): set differences of group names, then the
unconditional set.remove of the reserved name All Users — which raises
KeyError whenever that name is absent from the old set — then the ERS
carve-out dropping the two protected leading markers.  The ok value
carries the new-group and old-group lists that the create and delete
loops walk. -/
def sync_site_groups_diff (site_name : String)
    (ad_site_groups tableau_site_groups : List String) :
    Except String (List String × List String) :=
  let new_groups := (ad_site_groups.filter
    (fun n => ¬ n ∈ tableau_site_groups)).dedup
  let old_groups := (tableau_site_groups.filter
    (fun n => ¬ n ∈ ad_site_groups)).dedup
  if "All Users" ∈ old_groups then
    let old_erased := old_groups.erase "All Users"
    let old_final := if site_name = "ERS" then
        old_erased.filter (fun t =>
          !(ADSync.strStartsWith t "F_" || ADSync.strStartsWith t "A_"))
      else old_erased
    Except.ok (new_groups, old_final)
  else
    Except.error "KeyError"

/-- Effects of the membership loops of AD2TabSync._sync_site_memberships. -/
inductive MemberAction where
  | addUser (user_id : String) (group : String)
  | warnUserNotFound (name : String) (group : String)
  | removeUser (user_id : String) (group : String)
deriving DecidableEq

/-- Model of the new-member loop body of AD2TabSync._sync_site_memberships
(ad2tabsync.py lines 401-408): a missing account is logged as a warning
and skipped.  Python list.pop() takes the last matching id. -/
def add_new_member (tableau_site_users : List TUser) (group : String)
    (new_member : String) : MemberAction :=
  let user_id := (tableau_site_users.filter
    (fun u => u.name = new_member)).map (fun u => u.id)
  match user_id.getLast? with
  | some i => MemberAction.addUser i group
  | none => MemberAction.warnUserNotFound new_member group

/-- Model of the old-member loop body of AD2TabSync._sync_site_memberships
(ad2tabsync.py lines 409-413): the id list comprehension is popped without
an emptiness guard, so a missing account raises IndexError. -/
def remove_old_member (tableau_site_users : List TUser) (group : String)
    (old_member : String) : Except String MemberAction :=
  let user_id := (tableau_site_users.filter
    (fun u => u.name = old_member)).map (fun u => u.id)
  match user_id.getLast? with
  | some i => Except.ok (MemberAction.removeUser i group)
  | none => Except.error "IndexError: pop from empty list"

/-- Model of the two member loops for one group: new members are processed
first and never fail, old members second; an IndexError in the old-member
loop propagates uncaught (mapM short-circuits) and aborts the rest of the
membership reconciliation of the site. -/
def sync_group_members (tableau_site_users : List TUser) (group : String)
    (new_members old_members : List String) :
    Except String (List MemberAction) := do
  let adds := new_members.map (add_new_member tableau_site_users group)
  let removes ← old_members.mapM (remove_old_member tableau_site_users group)
  pure (adds ++ removes)

/-- Concrete stale Interactor owning a workbook, for evaluation. -/
def wUser3 : TUser :=
  { id := "id1", name := "alice", site_role := "Interactor",
    workbooks := [{ name := "wb1", owner_id := "id1" }] }

/-- Concrete Interactor without workbooks, for evaluation. -/
def wUserAlice : TUser :=
  { id := "id1", name := "alice", site_role := "Interactor", workbooks := [] }

/-- Concrete ServerAdministrator, for evaluation. -/
def wUserAdmin : TUser :=
  { id := "id9", name := "sam", site_role := "ServerAdministrator",
    workbooks := [] }

end Ad2Tab

namespace TabSync

/-- Target-system user row as read by tableausync.py. -/
structure TUser where
  id : String
  name : String
  site_role : String
deriving DecidableEq

/-- Visible effect of one step of the tableausync.py fresh-user loop. -/
inductive UserAction where
  | changeRole (name : String) (role : String)
  | createUser (name : String) (role : String)
deriving DecidableEq

/-- Model of the licensed-user listing at tableausync.py line 195. -/
def tableau_all_site_users (users : List TUser) : List TUser :=
  users.filter (fun u => ¬ u.site_role = "Unlicensed")

/-- Model of the unlicensed-user listing at tableausync.py line 196. -/
def tableau_unlicensed_users (users : List TUser) : List TUser :=
  users.filter (fun u => u.site_role = "Unlicensed")

/-- Model of the fresh-name computation at tableausync.py lines 201-203:
directory names minus the names of licensed target users. -/
def new_users_set (ad_names : List String) (users : List TUser) :
    List String :=
  (ad_names.filter (fun n =>
    ¬ n ∈ (tableau_all_site_users users).map (fun u => u.name))).dedup

/-- Model of the fresh-user branch at tableausync.py lines 226-243: a name
carried by an existing unlicensed target user is promoted to Interactor,
any other name gets a fresh Interactor user created. -/
def sync_new_user (users : List TUser) (new_user : String) : UserAction :=
  if new_user ∈ (tableau_unlicensed_users users).map (fun u => u.name) then
    UserAction.changeRole new_user "Interactor"
  else
    UserAction.createUser new_user "Interactor"

/-- Concrete unlicensed target user, for evaluation. -/
def wUserBob : TUser :=
  { id := "id2", name := "bob", site_role := "Unlicensed" }

end TabSync

namespace Hrms

/-- Persisted per-user MailStatus flags (hrms_report_sender.py lines
72-125): one boolean per escalation milestone. -/
structure MailFlags where
  first_mail : Bool
  second_mail : Bool
  third_mail : Bool
deriving DecidableEq

/-- Names of the three escalation milestones. -/
inductive Milestone where
  | first_mail
  | second_mail
  | third_mail
deriving DecidableEq

/-- Result of one evaluation of the escalation chain for one user: the
mail sent (when any), the persisted flags afterwards, and whether the
per-user state was cleaned. -/
structure EvalResult where
  sent : Option Milestone
  flags : MailFlags
  cleaned : Bool
deriving DecidableEq

/-- Model of the escalation chain of the cli function
(hrms_report_sender.py lines 389-417): days_left is the signed day count
until the termination date, has_resources tells whether the user_data
carries a tableau_resources entry.  Cleaning removes the user from the
MailStatus mapping, after which every get returns False, modelled by the
all-false flags record. -/
def evalEscalation (days_left : Int) (has_resources : Bool)
    (st : MailFlags) : EvalResult :=
  if days_left < -5 then
    { sent := none,
      flags := { first_mail := false, second_mail := false, third_mail := false },
      cleaned := true }
  else if ¬ has_resources then { sent := none, flags := st, cleaned := false }
  else if days_left < 0 ∧ ¬ st.third_mail then
    { sent := some Milestone.third_mail, flags := { st with third_mail := true },
      cleaned := false }
  else if days_left < 7 ∧ ¬ st.second_mail then
    { sent := some Milestone.second_mail, flags := { st with second_mail := true },
      cleaned := false }
  else if days_left > 7 ∧ ¬ st.first_mail then
    { sent := some Milestone.first_mail, flags := { st with first_mail := true },
      cleaned := false }
  else { sent := none, flags := st, cleaned := false }

/-- Reads the flag of the given milestone. -/
def flagOf (st : MailFlags) : Milestone → Bool
  | Milestone.first_mail => st.first_mail
  | Milestone.second_mail => st.second_mail
  | Milestone.third_mail => st.third_mail

end Hrms

namespace Pruner

/-- Principal of a permission grant: opaque id plus the tag_name
discriminator (user or group). -/
structure Grantee where
  id : String
  tag_name : String
deriving DecidableEq

/-- Permission grant on a resource. -/
structure Permission where
  grantee : Grantee
  capabilities : String
deriving DecidableEq

/-- Workbook with its tag list and grants. -/
structure Workbook where
  name : String
  project_name : String
  tags : List String
  permissions : List Permission
deriving DecidableEq

/-- Data source with its tag list and grants. -/
structure Datasource where
  name : String
  tags : List String
  permissions : List Permission
deriving DecidableEq

/-- Deletion effects of the permission pruners. -/
inductive PruneAction where
  | deleteWorkbookGrant (wb : String) (p : Permission)
  | deleteDatasourceGrant (ds : String) (p : Permission)
deriving DecidableEq

/-- Model of the workbook loop of
TableauPermissionCleaner._clear_site_from_group
(rm_guest_allusers_from_permissions.py lines 52-62), live mode: a workbook
carrying ignore_tag is skipped whole; on every other workbook each grant
whose grantee is the group is deleted. -/
def clear_workbooks_from_group (ignore_tag group_id : String)
    (wbs : List Workbook) : List PruneAction :=
  (wbs.filter (fun wb => ¬ ignore_tag ∈ wb.tags)).flatMap (fun wb =>
    (wb.permissions.filter (fun p =>
      p.grantee.id = group_id ∧ p.grantee.tag_name = "group")).map
      (fun p => PruneAction.deleteWorkbookGrant wb.name p))

/-- Model of the datasource loop of the same function (lines 64-72): the
info log line interpolates w.project_name, but no variable w is bound in
_clear_site_from_group, so the first matching grant on a datasource that
does not carry ignore_tag raises NameError before any deletion — in noop
mode as well, since the log runs unconditionally. -/
def clear_datasources_from_group (ignore_tag group_id : String)
    (dss : List Datasource) : Except String (List PruneAction) :=
  let filtered := dss.filter (fun d => ¬ ignore_tag ∈ d.tags)
  if filtered.any (fun d => d.permissions.any (fun p =>
      p.grantee.id = group_id ∧ p.grantee.tag_name = "group")) then
    Except.error "NameError: name w is not defined"
  else Except.ok []

/-- Model of TableauPermissionCleaner._clear_site_from_group
(rm_guest_allusers_from_permissions.py lines 48-72): workbooks first, then
datasources; the NameError of the datasource loop propagates. -/
def clear_site_from_group (ignore_tag group_id : String)
    (wbs : List Workbook) (dss : List Datasource) :
    Except String (List PruneAction) := do
  let wbActs := clear_workbooks_from_group ignore_tag group_id wbs
  let dsActs ← clear_datasources_from_group ignore_tag group_id dss
  pure (wbActs ++ dsActs)

/-- Denylist entry of clean_tableau_permissions.yaml as loaded into
clean_wb_users and clean_wb_groups (clean_tableau_permissions.py lines
192-206): principal id mapped to the configured exemption tag (none when
the yaml entry has no tag key) and display name. -/
structure CleanEntry where
  id : String
  tag : Option String
  name : String
deriving DecidableEq

/-- Membership test of the Python expression tag not in wb.tags, negated:
a missing tag (None) is never an element of a list of strings. -/
def tag_in_tags (t : Option String) (tags : List String) : Bool :=
  match t with
  | some s => decide (s ∈ tags)
  | none => false

/-- Model of the workbook section body of TableauPermissionCleaner.start
(clean_tableau_permissions.py lines 208-223), live mode: for each grant of
the workbook, a denylisted group or user principal loses the grant unless
the workbook tag list carries the exemption tag configured for that
principal. -/
def clean_wb_actions (clean_wb_users clean_wb_groups : List CleanEntry)
    (wb : Workbook) : List PruneAction :=
  wb.permissions.flatMap (fun p =>
    (match (if p.grantee.tag_name = "group" then
        clean_wb_groups.find? (fun e => e.id = p.grantee.id) else none) with
     | some e =>
       if ¬ tag_in_tags e.tag wb.tags then
         [PruneAction.deleteWorkbookGrant wb.name p]
       else []
     | none => []) ++
    (match (if p.grantee.tag_name = "user" then
        clean_wb_users.find? (fun e => e.id = p.grantee.id) else none) with
     | some e =>
       if ¬ tag_in_tags e.tag wb.tags then
         [PruneAction.deleteWorkbookGrant wb.name p]
       else []
     | none => []))

end Pruner

namespace Projects

/-- Project row of the target system: opaque id and optional parent id. -/
structure Project where
  id : String
  parent_id : Option String
deriving DecidableEq

/-- Placement test at clean_tableau_permissions.py line 128: the parent id
appears among the ids of the already-placed projects.  A project with no
parent (None) never matches, None being distinct from every id string. -/
def placeable (placed : List Project) (p : Project) : Bool :=
  placed.any (fun q => some q.id = p.parent_id)

/-- One pass of the for-loop at clean_tableau_permissions.py lines
127-129, with the Python iterator semantics over a list mutated by pop:
enumerate advances its position every step, so after popping the element
at the current position the element that slides into that position is
skipped until the next while-pass.  The kept argument accumulates the
scanned-but-not-popped elements (including the skipped ones); the second
component accumulates the placed projects. -/
def passAux (kept : List Project) :
    List Project → List Project → List Project × List Project
  | [], placed => (kept, placed)
  | x :: rest, placed =>
    if placeable placed x then
      match rest with
      | [] => (kept, placed ++ [x])
      | y :: rest2 => passAux (kept ++ [y]) rest2 (placed ++ [x])
    else passAux (kept ++ [x]) rest placed

/-- Model of the while-loop at clean_tableau_permissions.py lines 126-129:
repeat the pass until the pending list empties.  The fuel argument bounds
the number of passes; none models the infinite loop the Python code would
enter when a pass can place nothing while projects remain. -/
def whileLoop : Nat → List Project → List Project → Option (List Project)
  | _, [], placed => some placed
  | 0, _ :: _, _ => none
  | f + 1, x :: rest, placed =>
    let r := passAux [] (x :: rest) placed
    whileLoop f r.1 r.2

/-- Model of the hierarchy walk of TableauPermissionCleaner.start
(clean_tableau_permissions.py lines 123-129): roots (parent None) are
placed first, every other project is pending, and passes promote children
of placed projects until none are pending. -/
def tableau_projects_order (projects : List Project) : Option (List Project) :=
  let tableau_projects_by_parent := projects.filter (fun p => p.parent_id = none)
  let tableau_projects := projects.filter (fun p => ¬ p.parent_id = none)
  whileLoop (tableau_projects.length + 1) tableau_projects tableau_projects_by_parent

/-- A project is rooted in the list when its parent chain reaches a
parentless project through members of the list: the well-formedness that
the target system guarantees for its project listing. -/
inductive Rooted (projs : List Project) : Project → Prop
  | root (p : Project) : p.parent_id = none → Rooted projs p
  | step (p q : Project) : q ∈ projs → p.parent_id = some q.id →
      Rooted projs q → Rooted projs p

/-- Checks the parent-before-child discipline of an ordered list: every
element with a parent id must find it among the ids of earlier elements. -/
def parentBeforeAux (seen : List String) : List Project → Bool
  | [] => true
  | p :: rest =>
    (match p.parent_id with
     | none => true
     | some pid => decide (pid ∈ seen)) && parentBeforeAux (seen ++ [p.id]) rest

/-- Full parent-before-child order: every project appears after its
parent. -/
def parentBefore (l : List Project) : Bool := parentBeforeAux [] l

/-- Id strings of a project list. -/
def ids (l : List Project) : List String := l.map (fun p => p.id)

/-- Concrete three-level project forest, for evaluation. -/
def demoProjects : List Project :=
  [ { id := "r", parent_id := none },
    { id := "c", parent_id := some "r" },
    { id := "d", parent_id := some "c" } ]

end Projects
namespace ADSync

lemma length_filter_mono {α : Type} (l : List α) (p q : α → Bool)
    (h : ∀ a, q a = true → p a = true) :
    (l.filter q).length ≤ (l.filter p).length := by
  induction l with
  | nil => simp
  | cons a t ih =>
    simp only [List.filter_cons]
    cases hq : q a with
    | true =>
      rw [h a hq]
      simpa using ih
    | false =>
      cases hp : p a
      · simpa using ih
      · simp only [List.length_cons]
        exact Nat.le_succ_of_le ih

lemma length_filter_lt {α : Type} (l : List α) (p q : α → Bool)
    (h : ∀ a, q a = true → p a = true) (x : α) (hx : x ∈ l)
    (hp : p x = true) (hq : q x = false) :
    (l.filter q).length < (l.filter p).length := by
  induction l with
  | nil => cases hx
  | cons a t ih =>
    rcases List.mem_cons.mp hx with rfl | hmem
    · simp only [List.filter_cons, hp, hq, if_true, Bool.false_eq_true, if_false,
        List.length_cons]
      exact Nat.lt_succ_of_le (length_filter_mono t p q h)
    · simp only [List.filter_cons]
      cases hqa : q a with
      | true =>
        rw [h a hqa]
        simp only [List.length_cons]
        exact Nat.succ_lt_succ (ih hmem)
      | false =>
        cases hpa : p a
        · simpa using ih hmem
        · simp only [List.length_cons]
          exact Nat.lt_succ_of_lt (ih hmem)

lemma freshGroups_antitone (snap : Snapshot) (gl gl2 : List String)
    (h : gl ⊆ gl2) : freshGroups snap gl2 ≤ freshGroups snap gl := by
  apply length_filter_mono
  intro o ho
  simp only [Bool.and_eq_true, Bool.not_eq_true', decide_eq_false_iff_not] at ho ⊢
  exact ⟨ho.1, fun hc => ho.2 (h hc)⟩

lemma freshGroups_append_lt (snap : Snapshot) (gl : List String)
    (obj : ADObject) (hmem : obj ∈ snap) (hg : isGroup obj = true)
    (hnc : obj.dn ∉ gl) :
    freshGroups snap (gl ++ [obj.dn]) < freshGroups snap gl := by
  refine length_filter_lt _ _ _ ?_ obj hmem ?_ ?_
  · intro o ho
    simp only [Bool.and_eq_true, Bool.not_eq_true', decide_eq_false_iff_not,
      List.mem_append] at ho ⊢
    exact ⟨ho.1, fun hc => ho.2 (Or.inl hc)⟩
  · simp [hg, hnc]
  · simp

lemma mem_of_getObjectData (snap : Snapshot) (dn : String) (obj : ADObject)
    (h : getObjectData snap dn = some obj) : obj ∈ snap :=
  List.mem_of_find?_eq_some h

/-- The shared visited list only grows through one run of the member loop,
provided the expand argument also only grows it. -/
lemma membersLoopAux_subset
    (expand : String → List String → Option (List ADObject × List String))
    (snap : Snapshot)
    (hE : ∀ dn gl us gl2, expand dn gl = some (us, gl2) → gl ⊆ gl2) :
    ∀ ms users gl us gl2,
      membersLoopAux expand snap ms users gl = some (us, gl2) → gl ⊆ gl2 := by
  intro ms
  induction ms with
  | nil =>
    intro users gl us gl2 h
    simp only [membersLoopAux, Option.some.injEq, Prod.mk.injEq] at h
    exact h.2 ▸ List.Subset.refl gl
  | cons m rest ih =>
    intro users gl us gl2 h
    rw [membersLoopAux] at h
    split at h
    · exact ih users gl us gl2 h
    · rename_i obj hobj
      split at h
      · rename_i hgrp
        split at h
        · cases h
        · rename_i nu glr hrec
          have h1 : gl ++ [obj.dn] ⊆ glr := hE obj.dn _ nu glr hrec
          have h2 : glr ⊆ gl2 := ih _ glr us gl2 h
          exact fun x hx => h2 (h1 (List.mem_append_left _ hx))
      · exact ih _ gl us gl2 h

/-- The shared visited list only grows through a whole expansion. -/
lemma get_group_members_subset : ∀ (fuel : Nat) (snap : Snapshot) (dn : String)
    (gl : List String) (us : List ADObject) (gl2 : List String),
    get_group_members fuel snap dn gl = some (us, gl2) → gl ⊆ gl2 := by
  intro fuel
  induction fuel with
  | zero =>
    intro snap dn gl us gl2 h
    simp [get_group_members] at h
  | succ f ih =>
    intro snap dn gl us gl2 h
    rw [get_group_members] at h
    split at h
    · simp only [Option.some.injEq, Prod.mk.injEq] at h
      exact h.2 ▸ List.Subset.refl gl
    · rename_i g hobj
      split at h
      · simp only [Option.some.injEq, Prod.mk.injEq] at h
        exact h.2 ▸ List.Subset.refl gl
      · exact membersLoopAux_subset (get_group_members f snap) snap
          (fun dn gl us gl2 => ih snap dn gl us gl2) g.member [] gl us gl2 h

/-- The member loop returns whenever the expand argument returns on every
visited list strictly fresher than the current one. -/
lemma membersLoopAux_returns (snap : Snapshot) (f : Nat)
    (hE : ∀ dn gl, freshGroups snap gl < f →
      ∃ r, get_group_members f snap dn gl = some r) :
    ∀ ms users gl, freshGroups snap gl ≤ f →
      ∃ r, membersLoopAux (get_group_members f snap) snap ms users gl = some r := by
  intro ms
  induction ms with
  | nil =>
    intro users gl _
    exact ⟨(users, gl), rfl⟩
  | cons m rest ih =>
    intro users gl hle
    rw [membersLoopAux]
    split
    · exact ih users gl hle
    · rename_i obj hobj
      split
      · rename_i hgrp
        have hand := Bool.and_eq_true _ _ |>.mp hgrp
        have hlt := freshGroups_append_lt snap gl obj
          (mem_of_getObjectData snap m obj hobj)
          hand.1 (by simpa using hand.2)
        obtain ⟨⟨nu, glr⟩, hrec⟩ := hE obj.dn (gl ++ [obj.dn]) (by omega)
        simp only [hrec]
        have hsub : gl ++ [obj.dn] ⊆ glr :=
          get_group_members_subset f snap obj.dn _ nu glr hrec
        have hle2 : freshGroups snap glr ≤ freshGroups snap (gl ++ [obj.dn]) :=
          freshGroups_antitone snap _ glr hsub
        exact ih _ glr (by omega)
      · exact ih _ gl hle

/-- With fuel exceeding the number of unvisited groups the expansion
returns: the recursion terminates on every snapshot, cyclic group graphs
included. -/
lemma get_group_members_returns : ∀ (fuel : Nat) (snap : Snapshot)
    (dn : String) (gl : List String), freshGroups snap gl < fuel →
    ∃ r, get_group_members fuel snap dn gl = some r := by
  intro fuel
  induction fuel with
  | zero =>
    intro snap dn gl h
    omega
  | succ f ih =>
    intro snap dn gl h
    rw [get_group_members]
    split
    · exact ⟨([], gl), rfl⟩
    · rename_i g hobj
      split
      · exact ⟨([], gl), rfl⟩
      · exact membersLoopAux_returns snap f (fun dn gl hlt => ih snap dn gl hlt)
          g.member [] gl (by omega)

lemma namesNodup_personStep (snap : Snapshot) (users : List ADObject)
    (obj : ADObject) (h : namesNodup users) :
    namesNodup (personStep snap users obj) := by
  unfold personStep
  split
  · rename_i hc
    have hand := Bool.and_eq_true _ _ |>.mp hc
    have hnodup := Bool.and_eq_true _ _ |>.mp hand.1
    have hno : ∀ u ∈ users, ¬ u.sAMAccountName = obj.sAMAccountName := by
      intro u hu
      have h2 := hnodup.2
      simp only [Bool.not_eq_true', List.any_eq_false] at h2
      simpa using h2 u hu
    unfold namesNodup at h ⊢
    simp only [List.map_append, List.map_cons, List.map_nil]
    rw [List.nodup_append]
    refine ⟨h, List.nodup_singleton _, ?_⟩
    intro a ha hb
    simp only [List.mem_singleton] at hb
    simp only [List.mem_map] at ha
    obtain ⟨u, hu, rfl⟩ := ha
    exact hno u hu hb
  · exact h

lemma namesNodup_mergeUsers (users newusers : List ADObject)
    (h : namesNodup users) : namesNodup (mergeUsers users newusers) := by
  induction newusers generalizing users with
  | nil => exact h
  | cons nu rest ih =>
    unfold mergeUsers
    simp only [List.foldl_cons]
    by_cases hc : (users.any (fun u => u.sAMAccountName = nu.sAMAccountName)) = true
    · rw [if_pos hc]
      exact ih users h
    · rw [if_neg hc]
      refine ih (users ++ [nu]) ?_
      have hno : ∀ u ∈ users, ¬ u.sAMAccountName = nu.sAMAccountName := by
        simp only [Bool.not_eq_true, List.any_eq_false, decide_eq_false_iff_not] at hc
        exact hc
      unfold namesNodup at h ⊢
      simp only [List.map_append, List.map_cons, List.map_nil]
      rw [List.nodup_append]
      refine ⟨h, List.nodup_singleton _, ?_⟩
      intro a ha hb
      simp only [List.mem_singleton] at hb
      simp only [List.mem_map] at ha
      obtain ⟨u, hu, rfl⟩ := ha
      exact hno u hu hb

/-- The member loop preserves distinctness of collected account names:
the duplicate guard of mergeUsers protects the accumulator whatever the
expand argument returns. -/
lemma membersLoopAux_nodup
    (expand : String → List String → Option (List ADObject × List String))
    (snap : Snapshot) :
    ∀ ms users gl us gl2, namesNodup users →
      membersLoopAux expand snap ms users gl = some (us, gl2) → namesNodup us := by
  intro ms
  induction ms with
  | nil =>
    intro users gl us gl2 hn h
    simp only [membersLoopAux, Option.some.injEq, Prod.mk.injEq] at h
    exact h.1 ▸ hn
  | cons m rest ih =>
    intro users gl us gl2 hn h
    rw [membersLoopAux] at h
    split at h
    · exact ih users gl us gl2 hn h
    · rename_i obj hobj
      split at h
      · split at h
        · cases h
        · rename_i nu glr hrec
          exact ih _ glr us gl2
            (namesNodup_mergeUsers _ nu (namesNodup_personStep snap users obj hn)) h
      · exact ih _ gl us gl2 (namesNodup_personStep snap users obj hn) h

/-- Every expansion result carries pairwise distinct account names. -/
lemma get_group_members_nodup : ∀ (fuel : Nat) (snap : Snapshot) (dn : String)
    (gl : List String) (us : List ADObject) (gl2 : List String),
    get_group_members fuel snap dn gl = some (us, gl2) → namesNodup us := by
  intro fuel
  cases fuel with
  | zero =>
    intro snap dn gl us gl2 h
    simp [get_group_members] at h
  | succ f =>
    intro snap dn gl us gl2 h
    rw [get_group_members] at h
    split at h
    · simp only [Option.some.injEq, Prod.mk.injEq] at h
      exact h.1 ▸ List.Pairwise.nil
    · rename_i g hobj
      split at h
      · simp only [Option.some.injEq, Prod.mk.injEq] at h
        exact h.1 ▸ List.Pairwise.nil
      · exact membersLoopAux_nodup (get_group_members f snap) snap
          g.member [] gl us gl2 List.Pairwise.nil h

end ADSync

namespace Ad2Tab

/-- Erroring member removals short-circuit the member loop: whenever some
old member name resolves to no site user, the whole mapM errors. -/
lemma mapM_remove_old_member_error (users : List TUser) (group name : String)
    (hmiss : ¬ name ∈ users.map (fun u => u.name)) :
    ∀ olds : List String, name ∈ olds →
      ∃ e, olds.mapM (remove_old_member users group) = Except.error e := by
  have hone : remove_old_member users group name =
      Except.error "IndexError: pop from empty list" := by
    unfold remove_old_member
    have hfil : users.filter (fun u => u.name = name) = [] := by
      rw [List.filter_eq_nil_iff]
      intro u hu
      simp only [decide_eq_true_eq]
      intro heq
      exact hmiss (List.mem_map.mpr ⟨u, hu, heq⟩)
    rw [hfil]
    rfl
  intro olds
  induction olds with
  | nil => intro h; cases h
  | cons a t ih =>
    intro hmem
    rw [List.mapM_cons]
    rcases List.mem_cons.mp hmem with rfl | hmem2
    · rw [hone]
      exact ⟨"IndexError: pop from empty list", rfl⟩
    · rcases hres : remove_old_member users group a with e | v
      · exact ⟨e, rfl⟩
      · obtain ⟨e, he⟩ := ih hmem2
        refine ⟨e, ?_⟩
        rw [he]
        rfl

end Ad2Tab

/-- C3: a stale target user who is not a ServerAdministrator is demoted to
Unlicensed and never deleted when owning at least one workbook (the role
update being skipped when already Unlicensed), and is deleted when owning
none, a remove fault with the already-absent code 409003 being treated as
success. -/
theorem C3_stale_nonadmin_demote_or_delete (u : Ad2Tab.TUser)
    (outcome : Ad2Tab.RemoveOutcome)
    (hnotSA : ¬ u.site_role = "ServerAdministrator") :
    ((u.workbooks.filter (fun b => b.owner_id = u.id)).length > 0 →
      (¬ u.site_role = "Unlicensed" →
        Ad2Tab.syncOldUser u outcome =
          Except.ok [Ad2Tab.SyncAction.updateRole u.name "Unlicensed"]) ∧
      (u.site_role = "Unlicensed" →
        Ad2Tab.syncOldUser u outcome = Except.ok []) ∧
      (∀ acts, Ad2Tab.syncOldUser u outcome = Except.ok acts →
        ∀ i, ¬ Ad2Tab.SyncAction.removeUser i ∈ acts)) ∧
    ((u.workbooks.filter (fun b => b.owner_id = u.id)).length = 0 →
      (outcome = none →
        Ad2Tab.syncOldUser u outcome =
          Except.ok [Ad2Tab.SyncAction.removeUser u.id]) ∧
      (outcome = some "409003" →
        Ad2Tab.syncOldUser u outcome =
          Except.ok [Ad2Tab.SyncAction.removeUser u.id])) := by
  unfold Ad2Tab.syncOldUser
  rw [if_neg hnotSA]
  constructor
  · intro hlen
    rw [if_pos hlen]
    refine ⟨fun hrole => by rw [if_pos hrole],
      fun hrole => by rw [if_neg (not_not_intro hrole)], ?_⟩
    intro acts hacts i
    by_cases hrole : ¬ u.site_role = "Unlicensed"
    · rw [if_pos hrole] at hacts
      cases hacts
      simp
    · rw [if_neg hrole] at hacts
      cases hacts
      simp
  · intro hlen
    rw [if_neg (by omega)]
    constructor
    · intro ho
      subst ho
      rfl
    · intro ho
      subst ho
      simp

/-- Witness for C3: a stale Interactor owning one workbook, remove
succeeding. -/
theorem C3_stale_nonadmin_demote_or_delete_witness :
    (¬ Ad2Tab.wUser3.site_role = "ServerAdministrator") ∧
    (((Ad2Tab.wUser3.workbooks.filter
        (fun b => b.owner_id = Ad2Tab.wUser3.id)).length > 0 →
      (¬ Ad2Tab.wUser3.site_role = "Unlicensed" →
        Ad2Tab.syncOldUser Ad2Tab.wUser3 none =
          Except.ok [Ad2Tab.SyncAction.updateRole Ad2Tab.wUser3.name "Unlicensed"]) ∧
      (Ad2Tab.wUser3.site_role = "Unlicensed" →
        Ad2Tab.syncOldUser Ad2Tab.wUser3 none = Except.ok []) ∧
      (∀ acts, Ad2Tab.syncOldUser Ad2Tab.wUser3 none = Except.ok acts →
        ∀ i, ¬ Ad2Tab.SyncAction.removeUser i ∈ acts)) ∧
    ((Ad2Tab.wUser3.workbooks.filter
        (fun b => b.owner_id = Ad2Tab.wUser3.id)).length = 0 →
      (none = (none : Ad2Tab.RemoveOutcome) →
        Ad2Tab.syncOldUser Ad2Tab.wUser3 none =
          Except.ok [Ad2Tab.SyncAction.removeUser Ad2Tab.wUser3.id]) ∧
      ((none : Ad2Tab.RemoveOutcome) = some "409003" →
        Ad2Tab.syncOldUser Ad2Tab.wUser3 none =
          Except.ok [Ad2Tab.SyncAction.removeUser Ad2Tab.wUser3.id]))) :=
  ⟨by decide, C3_stale_nonadmin_demote_or_delete Ad2Tab.wUser3 none (by decide)⟩

/-- C4 as stated is refuted: when the directory also contains a group
named All Users under the site OU, the old set does not contain that name
and the unconditional set.remove raises KeyError, so the group-level diff
does not complete. -/
theorem C4_counterexample_keyerror :
    Ad2Tab.sync_site_groups_diff "Main" ["All Users"] ["All Users"] =
      Except.error "KeyError" := by rfl

/-- C4 amended: whenever the group diff completes, the reserved name All
Users is not in the old-group deletion list; and the diff does complete
whenever the target listing contains All Users while the directory listing
does not.  When All Users is missing from the computed old set — the
directory also carries the name, or the target listing lacks it — the
phase instead aborts with KeyError. -/
theorem C4_amended_allusers_excluded (site : String) (ad tab : List String) :
    (∀ newg oldg,
      Ad2Tab.sync_site_groups_diff site ad tab = Except.ok (newg, oldg) →
      ¬ "All Users" ∈ oldg) ∧
    ("All Users" ∈ tab → ¬ "All Users" ∈ ad →
      ∃ r, Ad2Tab.sync_site_groups_diff site ad tab = Except.ok r) := by
  unfold Ad2Tab.sync_site_groups_diff
  constructor
  · intro newg oldg h
    by_cases hmem : "All Users" ∈ (tab.filter (fun n => ¬ n ∈ ad)).dedup
    · rw [if_pos hmem] at h
      have hne : ¬ "All Users" ∈
          ((tab.filter (fun n => ¬ n ∈ ad)).dedup).erase "All Users" :=
        (List.nodup_dedup _).not_mem_erase
      cases h
      by_cases hsite : site = "ERS"
      · rw [if_pos hsite]
        intro hc
        exact hne (List.mem_of_mem_filter hc)
      · rw [if_neg hsite]
        exact hne
    · rw [if_neg hmem] at h
      cases h
  · intro h1 h2
    have hmem : "All Users" ∈ (tab.filter (fun n => ¬ n ∈ ad)).dedup :=
      List.mem_dedup.mpr (List.mem_filter.mpr ⟨h1, by simp [h2]⟩)
    rw [if_pos hmem]
    exact ⟨_, rfl⟩

/-- Witness for C4: a target listing with All Users and one stale group,
directory without either. -/
theorem C4_amended_allusers_excluded_witness :
    ("All Users" ∈ ["All Users", "G2"] ∧ ¬ "All Users" ∈ ["G1"]) ∧
    (∃ r, Ad2Tab.sync_site_groups_diff "Main" ["G1"] ["All Users", "G2"] =
      Except.ok r) :=
  ⟨⟨by decide, by decide⟩,
    (C4_amended_allusers_excluded "Main" ["G1"] ["All Users", "G2"]).2
      (by decide) (by decide)⟩

/-- C5: in tableausync.py a fresh name carried by an existing unlicensed
target user is promoted to Interactor instead of created, and is created
exactly when no unlicensed user carries it; in ad2tabsync.py the fresh
list excludes every existing target name, so creation is the only branch
taken and it only happens for names no target user carries at all. -/
theorem C5_fresh_unlicensed_promoted
    (users : List TabSync.TUser) (ad_names : List String) (name : String)
    (tabUsers : List Ad2Tab.TUser) (ad2 service : List String) (name2 : String)
    (_h1 : name ∈ TabSync.new_users_set ad_names users)
    (h2 : name2 ∈ Ad2Tab.new_users (tabUsers.map (fun u => u.name)) ad2 service) :
    ((∃ u ∈ users, u.name = name ∧ u.site_role = "Unlicensed") →
      TabSync.sync_new_user users name =
        TabSync.UserAction.changeRole name "Interactor") ∧
    ((¬ ∃ u ∈ users, u.name = name ∧ u.site_role = "Unlicensed") →
      TabSync.sync_new_user users name =
        TabSync.UserAction.createUser name "Interactor") ∧
    (Ad2Tab.sync_new_user tabUsers name2 =
        Ad2Tab.SyncAction.createUser name2 "Interactor" ∧
      ¬ ∃ u ∈ tabUsers, u.name = name2) := by
  have hnot2 : ¬ name2 ∈ tabUsers.map (fun u => u.name) := by
    have := List.mem_dedup.mp h2
    have hp := (List.mem_filter.mp this).2
    simp only [decide_eq_true_eq] at hp
    exact hp.1
  refine ⟨?_, ?_, ?_, ?_⟩
  · rintro ⟨u, hu, hname, hrole⟩
    unfold TabSync.sync_new_user
    rw [if_pos]
    exact List.mem_map.mpr ⟨u,
      List.mem_filter.mpr ⟨hu, by simp [TabSync.tableau_unlicensed_users, hrole]⟩, hname⟩
  · intro hno
    unfold TabSync.sync_new_user
    rw [if_neg]
    intro hc
    obtain ⟨u, hu, hname⟩ := List.mem_map.mp hc
    have hu2 := List.mem_filter.mp hu
    exact hno ⟨u, hu2.1, hname, by simpa using hu2.2⟩
  · unfold Ad2Tab.sync_new_user
    rw [if_neg]
    intro hc
    obtain ⟨u, hu, hname⟩ := List.mem_map.mp hc
    exact hnot2 (List.mem_map.mpr ⟨u, List.mem_of_mem_filter hu, hname⟩)
  · rintro ⟨u, hu, hname⟩
    exact hnot2 (List.mem_map.mpr ⟨u, hu, hname⟩)

/-- Witness for C5: an unlicensed bob promoted on the tableausync side, a
brand-new carol created on the ad2tabsync side. -/
theorem C5_fresh_unlicensed_promoted_witness :
    ("bob" ∈ TabSync.new_users_set ["bob"] [TabSync.wUserBob] ∧
     "carol" ∈ Ad2Tab.new_users
       ([Ad2Tab.wUserAlice].map (fun u => u.name)) ["carol"] []) ∧
    (((∃ u ∈ [TabSync.wUserBob], u.name = "bob" ∧ u.site_role = "Unlicensed") →
      TabSync.sync_new_user [TabSync.wUserBob] "bob" =
        TabSync.UserAction.changeRole "bob" "Interactor") ∧
    ((¬ ∃ u ∈ [TabSync.wUserBob], u.name = "bob" ∧ u.site_role = "Unlicensed") →
      TabSync.sync_new_user [TabSync.wUserBob] "bob" =
        TabSync.UserAction.createUser "bob" "Interactor") ∧
    (Ad2Tab.sync_new_user [Ad2Tab.wUserAlice] "carol" =
        Ad2Tab.SyncAction.createUser "carol" "Interactor" ∧
      ¬ ∃ u ∈ [Ad2Tab.wUserAlice], u.name = "carol")) :=
  ⟨⟨by decide, by decide⟩,
    C5_fresh_unlicensed_promoted [TabSync.wUserBob] ["bob"] "bob"
      [Ad2Tab.wUserAlice] ["carol"] [] "carol" (by decide) (by decide)⟩

/-- C6: a stale ServerAdministrator triggers only the notification — no
removal, no role update — and the notification is rate limited by the
persisted day: from empty state one mail is sent and the day stored, a
second run at most 3 days later sends nothing and leaves the state alone,
and a run at least 4 days after the stored day sends exactly one more mail
and stores the new day. -/
theorem C6_serveradmin_mail_rate_limited (u : Ad2Tab.TUser)
    (outcome : Ad2Tab.RemoveOutcome) (name : String) (d0 k m : Int)
    (hSA : u.site_role = "ServerAdministrator") (hk : k ≤ 3) (hm : 4 ≤ m) :
    Ad2Tab.syncOldUser u outcome =
      Except.ok [Ad2Tab.SyncAction.sendMailOldSA u.name] ∧
    Ad2Tab.send_mail_old_serveradministrator [] name d0 = (true, [(name, d0)]) ∧
    Ad2Tab.send_mail_old_serveradministrator [(name, d0)] name (d0 + k) =
      (false, [(name, d0)]) ∧
    Ad2Tab.send_mail_old_serveradministrator [(name, d0)] name (d0 + m) =
      (true, [(name, d0 + m)]) := by
  have hl : Ad2Tab.lookupSent [(name, d0)] name = some d0 := by
    unfold Ad2Tab.lookupSent
    rw [List.find?_cons_of_pos _ (by simp)]
    rfl
  refine ⟨?_, ?_, ?_, ?_⟩
  · unfold Ad2Tab.syncOldUser
    rw [if_pos hSA]
  · rfl
  · unfold Ad2Tab.send_mail_old_serveradministrator
    simp only [hl]
    rw [if_neg (by omega)]
  · unfold Ad2Tab.send_mail_old_serveradministrator
    simp only [hl]
    rw [if_pos (by omega)]
    unfold Ad2Tab.setSent
    simp

/-- Witness for C6: admin sam, first mail on day 10, silent run on day 12,
second mail on day 15. -/
theorem C6_serveradmin_mail_rate_limited_witness :
    (Ad2Tab.wUserAdmin.site_role = "ServerAdministrator" ∧
      (2 : Int) ≤ 3 ∧ (4 : Int) ≤ 5) ∧
    (Ad2Tab.syncOldUser Ad2Tab.wUserAdmin none =
      Except.ok [Ad2Tab.SyncAction.sendMailOldSA Ad2Tab.wUserAdmin.name] ∧
    Ad2Tab.send_mail_old_serveradministrator [] "sam" 10 = (true, [("sam", 10)]) ∧
    Ad2Tab.send_mail_old_serveradministrator [("sam", 10)] "sam" (10 + 2) =
      (false, [("sam", 10)]) ∧
    Ad2Tab.send_mail_old_serveradministrator [("sam", 10)] "sam" (10 + 5) =
      (true, [("sam", 10 + 5)])) :=
  ⟨⟨by decide, by decide, by decide⟩,
    C6_serveradmin_mail_rate_limited Ad2Tab.wUserAdmin none "sam" 10 2 5
      (by decide) (by decide) (by decide)⟩

/-- C7 as stated is refuted: with milestone 2 already marked sent and
milestones 1 and 3 unset, an evaluation at day-count 8 — the band of
milestone 1 — does send milestone 1. -/
theorem C7_counterexample_band1_after_band2 :
    (Hrms.evalEscalation 8 true
      { first_mail := false, second_mail := true, third_mail := false }).sent =
      some Hrms.Milestone.first_mail := by decide

/-- C7 amended: one evaluation sends at most one mail (the chain is a
single if-elif cascade), and a milestone is sent only when its own flag is
unset, the flag being set afterwards — so no milestone is ever re-sent;
but each band is gated only by its own flag, so a day-count above 7 sends
milestone 1 even when milestone 2 is already marked sent. -/
theorem C7_amended_own_flag_gates (d : Int) (r : Bool) (st : Hrms.MailFlags)
    (ms : Hrms.Milestone)
    (h : (Hrms.evalEscalation d r st).sent = some ms) :
    Hrms.flagOf st ms = false ∧
    Hrms.flagOf (Hrms.evalEscalation d r st).flags ms = true := by
  unfold Hrms.evalEscalation at h ⊢
  by_cases h1 : d < -5
  · rw [if_pos h1] at h
    simp at h
  · rw [if_neg h1] at h ⊢
    by_cases h2 : ¬ r = true
    · rw [if_pos h2] at h
      simp at h
    · rw [if_neg h2] at h ⊢
      by_cases h3 : d < 0 ∧ ¬ st.third_mail = true
      · rw [if_pos h3] at h ⊢
        cases h
        exact ⟨by simpa using h3.2, rfl⟩
      · rw [if_neg h3] at h ⊢
        by_cases h4 : d < 7 ∧ ¬ st.second_mail = true
        · rw [if_pos h4] at h ⊢
          cases h
          exact ⟨by simpa using h4.2, rfl⟩
        · rw [if_neg h4] at h ⊢
          by_cases h5 : 7 < d ∧ ¬ st.first_mail = true
          · rw [if_pos h5] at h ⊢
            cases h
            exact ⟨by simpa using h5.2, rfl⟩
          · rw [if_neg h5] at h
            simp at h

/-- Witness for C7 amended: the third mail at day-count -1 from a blank
state. -/
theorem C7_amended_own_flag_gates_witness :
    ((Hrms.evalEscalation (-1) true
      { first_mail := false, second_mail := false, third_mail := false }).sent =
      some Hrms.Milestone.third_mail) ∧
    (Hrms.flagOf
      { first_mail := false, second_mail := false, third_mail := false }
      Hrms.Milestone.third_mail = false ∧
    Hrms.flagOf (Hrms.evalEscalation (-1) true
      { first_mail := false, second_mail := false, third_mail := false }).flags
      Hrms.Milestone.third_mail = true) :=
  ⟨by decide,
    C7_amended_own_flag_gates (-1) true
      { first_mail := false, second_mail := false, third_mail := false }
      Hrms.Milestone.third_mail (by decide)⟩

/-- C8 at concrete inputs: the per-principal exemption of
clean_tableau_permissions keeps the grant of the denylisted group on the
workbook tagged keep and removes it from the untagged workbook, and the
workbook loop of rm_guest_allusers_from_permissions does the same for its
single group; but one matching grant on an untagged DATA SOURCE makes
_clear_site_from_group raise NameError — the log line interpolates the
unbound name w — instead of removing the grant, as the claim requires. -/
theorem C8_leaf_prune_eval :
    Pruner.clean_wb_actions [] [{ id := "g1", tag := some "keep", name := "G" }]
      { name := "wbT", project_name := "P", tags := ["keep"],
        permissions := [{ grantee := { id := "g1", tag_name := "group" },
                          capabilities := "Read" }] } = [] ∧
    Pruner.clean_wb_actions [] [{ id := "g1", tag := some "keep", name := "G" }]
      { name := "wbU", project_name := "P", tags := [],
        permissions := [{ grantee := { id := "g1", tag_name := "group" },
                          capabilities := "Read" }] } =
      [Pruner.PruneAction.deleteWorkbookGrant "wbU"
        { grantee := { id := "g1", tag_name := "group" }, capabilities := "Read" }] ∧
    Pruner.clear_workbooks_from_group "keep" "g1"
      [{ name := "wbT", project_name := "P", tags := ["keep"],
         permissions := [{ grantee := { id := "g1", tag_name := "group" },
                           capabilities := "Read" }] },
       { name := "wbU", project_name := "P", tags := [],
         permissions := [{ grantee := { id := "g1", tag_name := "group" },
                           capabilities := "Read" }] }] =
      [Pruner.PruneAction.deleteWorkbookGrant "wbU"
        { grantee := { id := "g1", tag_name := "group" }, capabilities := "Read" }] ∧
    Pruner.clear_site_from_group "keep" "g1" []
      [{ name := "dsU", tags := [],
         permissions := [{ grantee := { id := "g1", tag_name := "group" },
                           capabilities := "Read" }] }] =
      Except.error "NameError: name w is not defined" := by
  refine ⟨rfl, rfl, rfl, rfl⟩

/-- C10: in the membership phase a missing account among added members
yields a warning action and the loop goes on, while the same missing
account among removed members raises IndexError, and the error aborts the
remaining membership reconciliation of the group. -/
theorem C10_membership_asymmetry (users : List Ad2Tab.TUser)
    (group name : String) (news olds : List String)
    (hmiss : ¬ name ∈ users.map (fun u => u.name)) (hold : name ∈ olds) :
    Ad2Tab.add_new_member users group name =
      Ad2Tab.MemberAction.warnUserNotFound name group ∧
    Ad2Tab.remove_old_member users group name =
      Except.error "IndexError: pop from empty list" ∧
    ∃ e, Ad2Tab.sync_group_members users group news olds = Except.error e := by
  have hfil : users.filter (fun u => u.name = name) = [] := by
    rw [List.filter_eq_nil_iff]
    intro u hu
    simp only [decide_eq_true_eq]
    intro heq
    exact hmiss (List.mem_map.mpr ⟨u, hu, heq⟩)
  refine ⟨?_, ?_, ?_⟩
  · unfold Ad2Tab.add_new_member
    rw [hfil]
    rfl
  · unfold Ad2Tab.remove_old_member
    rw [hfil]
    rfl
  · obtain ⟨e, he⟩ :=
      Ad2Tab.mapM_remove_old_member_error users group name hmiss olds hold
    refine ⟨e, ?_⟩
    have he2 : List.mapM.loop (Ad2Tab.remove_old_member users group) olds [] =
        Except.error e := he
    simp [Ad2Tab.sync_group_members, he2]

/-- Witness for C10: the name ghost is in no site user listing and sits in
the old-member set. -/
theorem C10_membership_asymmetry_witness :
    (¬ "ghost" ∈ [Ad2Tab.wUserAlice].map (fun u => u.name) ∧
      "ghost" ∈ ["ghost"]) ∧
    (Ad2Tab.add_new_member [Ad2Tab.wUserAlice] "Team" "ghost" =
      Ad2Tab.MemberAction.warnUserNotFound "ghost" "Team" ∧
    Ad2Tab.remove_old_member [Ad2Tab.wUserAlice] "Team" "ghost" =
      Except.error "IndexError: pop from empty list" ∧
    ∃ e, Ad2Tab.sync_group_members [Ad2Tab.wUserAlice] "Team" [] ["ghost"] =
      Except.error e) :=
  ⟨⟨by decide, by decide⟩,
    C10_membership_asymmetry [Ad2Tab.wUserAlice] "Team" "ghost" [] ["ghost"]
      (by decide) (by decide)⟩

/-- C1 at the failing snapshot: the first expansion of group A collects p1
and the nested p2 and leaves the distinguished name B in the shared
default list; the second expansion of the very same group on the very same
snapshot then starts from that polluted list, skips the recursion into B,
and returns only p1.  The expansion is not idempotent across calls because
the Python default argument group_list=[] is one shared mutated list. -/
theorem C1_expansion_not_idempotent_eval :
    (ADSync.get_members_by_groupname ADSync.demoSnap [] "A").map
      (fun r => (r.1.map (fun u => u.sAMAccountName), r.2)) =
      some (["p1", "p2"], ["B"]) ∧
    (ADSync.get_members_by_groupname ADSync.demoSnap ["B"] "A").map
      (fun r => r.1.map (fun u => u.sAMAccountName)) = some ["p1"] := by
  refine ⟨rfl, rfl⟩

/-- C2: on every directory snapshot — nested, mutually containing or
self-containing groups included — the member expansion returns within the
expansionFuel bound, whatever the shared visited list holds (so it
terminates on every cyclic graph), and each account name appears at most
once in the returned user list. -/
theorem C2_expansion_terminates_each_name_once (snap : ADSync.Snapshot)
    (dn : String) (state : List String) :
    ∃ r, ADSync.get_members_by_groupname snap state dn = some r ∧
      ADSync.namesNodup r.1 := by
  have hmono : ADSync.freshGroups snap state ≤ ADSync.freshGroups snap [] :=
    ADSync.freshGroups_antitone snap [] state (by intro x hx; cases hx)
  obtain ⟨⟨us, gl2⟩, hr⟩ := ADSync.get_group_members_returns
    (ADSync.expansionFuel snap) snap dn state (by
      unfold ADSync.expansionFuel
      omega)
  exact ⟨(us, gl2), hr,
    ADSync.get_group_members_nodup _ snap dn state us gl2 hr⟩

namespace Projects

/-- Unfolding equation of passAux on the empty scan list. -/
lemma passAux_nil (kept placed : List Project) :
    passAux kept [] placed = (kept, placed) := by
  simp only [passAux.eq_def]

/-- Unfolding equation of passAux placing a project whose scan list ends
with it. -/
lemma passAux_pos_nil (kept placed : List Project) (x : Project)
    (h : placeable placed x = true) :
    passAux kept [x] placed = (kept, placed ++ [x]) := by
  rw [passAux.eq_def]
  show (if placeable placed x = true then (kept, placed ++ [x])
        else passAux (kept ++ [x]) [] placed) = _
  rw [if_pos h]

/-- Unfolding equation of passAux placing a project and skipping the
element sliding into its position. -/
lemma passAux_pos_cons (kept placed : List Project) (x y : Project)
    (rest2 : List Project) (h : placeable placed x = true) :
    passAux kept (x :: y :: rest2) placed =
      passAux (kept ++ [y]) rest2 (placed ++ [x]) := by
  rw [passAux.eq_def]
  show (if placeable placed x = true then
        passAux (kept ++ [y]) rest2 (placed ++ [x])
      else passAux (kept ++ [x]) (y :: rest2) placed) = _
  rw [if_pos h]

/-- Unfolding equation of passAux scanning past an unplaceable project. -/
lemma passAux_neg (kept placed : List Project) (x : Project)
    (rest : List Project) (h : ¬ placeable placed x = true) :
    passAux kept (x :: rest) placed = passAux (kept ++ [x]) rest placed := by
  cases rest with
  | nil =>
    rw [passAux.eq_def]
    show (if placeable placed x = true then (kept, placed ++ [x])
          else passAux (kept ++ [x]) [] placed) = _
    rw [if_neg h]
  | cons y rest2 =>
    rw [passAux.eq_def]
    show (if placeable placed x = true then
          passAux (kept ++ [y]) rest2 (placed ++ [x])
        else passAux (kept ++ [x]) (y :: rest2) placed) = _
    rw [if_neg h]

/-- One pass only rearranges: the elements of the resulting pending and
placed lists are a permutation of the scanned, unscanned and placed
elements it started from. -/
lemma passAux_perm : ∀ (n : Nat) (rest : List Project), rest.length ≤ n →
    ∀ (kept placed : List Project),
      List.Perm ((passAux kept rest placed).1 ++ (passAux kept rest placed).2)
        (kept ++ rest ++ placed) := by
  intro n
  induction n with
  | zero =>
    intro rest hlen kept placed
    have hnil : rest = [] := List.length_eq_zero.mp (Nat.le_zero.mp hlen)
    subst hnil
    simp [passAux_nil]
  | succ m ih =>
    intro rest hlen kept placed
    cases rest with
    | nil => simp [passAux_nil]
    | cons x rest1 =>
      by_cases hpl : placeable placed x = true
      · cases rest1 with
        | nil =>
          rw [passAux_pos_nil kept placed x hpl]
          rw [List.perm_iff_count]
          intro a
          simp [List.count_append, List.count_cons]
        | cons y rest2 =>
          rw [passAux_pos_cons kept placed x y rest2 hpl]
          have hstep := ih rest2 (by simp at hlen; omega) (kept ++ [y]) (placed ++ [x])
          refine hstep.trans ?_
          rw [List.perm_iff_count]
          intro a
          simp [List.count_append, List.count_cons]
          omega
      · rw [passAux_neg kept placed x rest1 hpl]
        have hstep := ih rest1 (by simp at hlen; omega) (kept ++ [x]) placed
        refine hstep.trans ?_
        rw [List.perm_iff_count]
        intro a
        simp [List.count_append, List.count_cons]

/-- The placed list never shrinks during a pass. -/
lemma passAux_placed_mono : ∀ (n : Nat) (rest : List Project),
    rest.length ≤ n → ∀ (kept placed : List Project),
      placed.length ≤ (passAux kept rest placed).2.length := by
  intro n
  induction n with
  | zero =>
    intro rest hlen kept placed
    have hnil : rest = [] := List.length_eq_zero.mp (Nat.le_zero.mp hlen)
    subst hnil
    simp [passAux_nil]
  | succ m ih =>
    intro rest hlen kept placed
    cases rest with
    | nil => simp [passAux_nil]
    | cons x rest1 =>
      by_cases hpl : placeable placed x = true
      · cases rest1 with
        | nil =>
          rw [passAux_pos_nil kept placed x hpl]
          simp
        | cons y rest2 =>
          rw [passAux_pos_cons kept placed x y rest2 hpl]
          have := ih rest2 (by simp at hlen; omega) (kept ++ [y]) (placed ++ [x])
          simp at this
          omega
      · rw [passAux_neg kept placed x rest1 hpl]
        exact ih rest1 (by simp at hlen; omega) (kept ++ [x]) placed

/-- Every project still pending after a pass was already kept or pending
before it. -/
lemma passAux_pending_subset : ∀ (n : Nat) (rest : List Project),
    rest.length ≤ n → ∀ (kept placed : List Project) (x : Project),
      x ∈ (passAux kept rest placed).1 → x ∈ kept ++ rest := by
  intro n
  induction n with
  | zero =>
    intro rest hlen kept placed x hx
    have hnil : rest = [] := List.length_eq_zero.mp (Nat.le_zero.mp hlen)
    subst hnil
    simp [passAux_nil] at hx
    simp [hx]
  | succ m ih =>
    intro rest hlen kept placed x hx
    cases rest with
    | nil =>
      simp [passAux_nil] at hx
      simp [hx]
    | cons w rest1 =>
      by_cases hpl : placeable placed w = true
      · cases rest1 with
        | nil =>
          rw [passAux_pos_nil kept placed w hpl] at hx
          simp at hx
          simp [hx]
        | cons y rest2 =>
          rw [passAux_pos_cons kept placed w y rest2 hpl] at hx
          have := ih rest2 (by simp at hlen; omega) (kept ++ [y]) (placed ++ [w]) x hx
          simp [List.mem_append, List.mem_cons] at this ⊢
          tauto
      · rw [passAux_neg kept placed w rest1 hpl] at hx
        have := ih rest1 (by simp at hlen; omega) (kept ++ [w]) placed x hx
        simp [List.mem_append, List.mem_cons] at this ⊢
        tauto

/-- Appending a project whose parent id already occurs among the seen ids
or the list ids preserves the parent-before-child check. -/
lemma parentBeforeAux_append (x : Project) : ∀ (l : List Project)
    (seen : List String), parentBeforeAux seen l = true →
    (∀ pid, x.parent_id = some pid → pid ∈ seen ++ ids l) →
    parentBeforeAux seen (l ++ [x]) = true := by
  intro l
  induction l with
  | nil =>
    intro seen _ hx
    rw [List.nil_append]
    rw [parentBeforeAux]
    rcases hpar : x.parent_id with _ | pid
    · simp [parentBeforeAux]
    · have := hx pid hpar
      simp [ids] at this
      simp [parentBeforeAux, this]
  | cons p l1 ih =>
    intro seen h hx
    rw [List.cons_append, parentBeforeAux]
    rw [parentBeforeAux] at h
    rw [Bool.and_eq_true] at h ⊢
    refine ⟨h.1, ih (seen ++ [p.id]) h.2 ?_⟩
    intro pid hpid
    have := hx pid hpid
    simp [ids, List.mem_append, List.mem_cons] at this ⊢
    tauto

/-- A root-only list passes the parent-before-child check under any seen
ids. -/
lemma parentBeforeAux_roots : ∀ (l : List Project) (seen : List String),
    (∀ p ∈ l, p.parent_id = none) → parentBeforeAux seen l = true := by
  intro l
  induction l with
  | nil => intro seen _; rfl
  | cons p l1 ih =>
    intro seen h
    rw [parentBeforeAux, Bool.and_eq_true]
    constructor
    · rw [h p (by simp)]
    · exact ih _ (fun q hq => h q (by simp [hq]))

/-- A pass preserves the parent-before-child discipline of the placed
list: a project is appended only when its parent is already placed. -/
lemma passAux_parentBefore : ∀ (n : Nat) (rest : List Project),
    rest.length ≤ n → ∀ (kept placed : List Project),
      parentBefore placed = true →
      parentBefore (passAux kept rest placed).2 = true := by
  intro n
  induction n with
  | zero =>
    intro rest hlen kept placed h
    have hnil : rest = [] := List.length_eq_zero.mp (Nat.le_zero.mp hlen)
    subst hnil
    simpa [passAux_nil] using h
  | succ m ih =>
    intro rest hlen kept placed h
    cases rest with
    | nil => simpa [passAux_nil] using h
    | cons x rest1 =>
      by_cases hpl : placeable placed x = true
      · have hgrow : parentBefore (placed ++ [x]) = true := by
          unfold parentBefore at h ⊢
          refine parentBeforeAux_append x placed [] h ?_
          intro pid hpid
          unfold placeable at hpl
          rw [List.any_eq_true] at hpl
          obtain ⟨q, hq, hqe⟩ := hpl
          simp only [decide_eq_true_eq] at hqe
          rw [hpid] at hqe
          have hid : q.id = pid := Option.some.inj hqe
          simp only [List.nil_append, ids, List.mem_map]
          exact ⟨q, hq, hid⟩
        cases rest1 with
        | nil =>
          rw [passAux_pos_nil kept placed x hpl]
          exact hgrow
        | cons y rest2 =>
          rw [passAux_pos_cons kept placed x y rest2 hpl]
          exact ih rest2 (by simp at hlen; omega) (kept ++ [y]) (placed ++ [x]) hgrow
      · rw [passAux_neg kept placed x rest1 hpl]
        exact ih rest1 (by simp at hlen; omega) (kept ++ [x]) placed h

/-- A pass that can place something strictly grows the placed list. -/
lemma passAux_progress : ∀ (n : Nat) (rest : List Project),
    rest.length ≤ n → ∀ (kept placed : List Project) (x : Project),
      x ∈ rest → placeable placed x = true →
      placed.length < (passAux kept rest placed).2.length := by
  intro n
  induction n with
  | zero =>
    intro rest hlen kept placed x hx
    have hnil : rest = [] := List.length_eq_zero.mp (Nat.le_zero.mp hlen)
    subst hnil
    cases hx
  | succ m ih =>
    intro rest hlen kept placed x hx hplx
    cases rest with
    | nil => cases hx
    | cons w rest1 =>
      by_cases hpl : placeable placed w = true
      · cases rest1 with
        | nil =>
          rw [passAux_pos_nil kept placed w hpl]
          simp
        | cons y rest2 =>
          rw [passAux_pos_cons kept placed w y rest2 hpl]
          have hmono := passAux_placed_mono rest2.length rest2 (Nat.le_refl _)
            (kept ++ [y]) (placed ++ [w])
          simp at hmono
          omega
      · rw [passAux_neg kept placed w rest1 hpl]
        rcases List.mem_cons.mp hx with rfl | hx2
        · exact absurd hplx hpl
        · exact ih rest1 (by simp at hlen; omega) (kept ++ [w]) placed x hx2 hplx

/-- On a rooted project list, a nonempty pending set always contains a
placeable project: walk the parent chain of any pending project until it
leaves the pending set. -/
lemma placeable_exists (projects : List Project)
    (pending placed : List Project)
    (hperm : List.Perm (pending ++ placed) projects)
    (hnoroot : ∀ p ∈ pending, ¬ p.parent_id = none) :
    ∀ p, Rooted projects p → p ∈ pending →
      ∃ x ∈ pending, placeable placed x = true := by
  intro p hr
  induction hr with
  | root p hnone =>
    intro hp
    exact absurd hnone (hnoroot p hp)
  | step p q hqmem hpar _ ih =>
    intro hp
    by_cases hqp : q ∈ pending
    · exact ih hqp
    · refine ⟨p, hp, ?_⟩
      have hq2 : q ∈ pending ++ placed := hperm.mem_iff.mpr hqmem
      have hqplaced : q ∈ placed := by
        rcases List.mem_append.mp hq2 with h | h
        · exact absurd h hqp
        · exact h
      unfold placeable
      rw [List.any_eq_true]
      exact ⟨q, hqplaced, by simp [hpar]⟩

/-- The while-loop returns within pending.length passes on a rooted
listing, preserving the permutation and the parent-before-child order of
the placed list. -/
lemma whileLoop_ok (projects : List Project)
    (hforest : ∀ p ∈ projects, Rooted projects p) :
    ∀ (fuel : Nat) (pending placed : List Project),
      pending.length < fuel →
      List.Perm (pending ++ placed) projects →
      (∀ p ∈ pending, ¬ p.parent_id = none) →
      parentBefore placed = true →
      ∃ out, whileLoop fuel pending placed = some out ∧
        List.Perm out projects ∧ parentBefore out = true := by
  intro fuel
  induction fuel with
  | zero =>
    intro pending placed h
    omega
  | succ f ih =>
    intro pending placed hlt hperm hnoroot hpb
    cases pending with
    | nil =>
      exact ⟨placed, rfl, by simpa using hperm, hpb⟩
    | cons x xs =>
      rw [whileLoop]
      have hperm1 : List.Perm
          ((passAux [] (x :: xs) placed).1 ++ (passAux [] (x :: xs) placed).2)
          ((x :: xs) ++ placed) := by
        simpa using passAux_perm (x :: xs).length (x :: xs) (Nat.le_refl _) [] placed
      have hperm2 : List.Perm
          ((passAux [] (x :: xs) placed).1 ++ (passAux [] (x :: xs) placed).2)
          projects := hperm1.trans hperm
      obtain ⟨w, hwmem, hwpl⟩ := placeable_exists projects (x :: xs)
        placed hperm hnoroot x
        (hforest x (hperm.mem_iff.mp (List.mem_append_left _ (by simp))))
        (by simp)
      have hprog : placed.length < (passAux [] (x :: xs) placed).2.length :=
        passAux_progress (x :: xs).length (x :: xs) (Nat.le_refl _) [] placed
          w hwmem hwpl
      have hlen1 : (passAux [] (x :: xs) placed).1.length < (x :: xs).length := by
        have := hperm1.length_eq
        simp only [List.length_append] at this
        omega
      have hnoroot1 : ∀ p ∈ (passAux [] (x :: xs) placed).1,
          ¬ p.parent_id = none := by
        intro p hp
        have := passAux_pending_subset (x :: xs).length (x :: xs) (Nat.le_refl _)
          [] placed p hp
        exact hnoroot p (by simpa using this)
      have hpb1 : parentBefore (passAux [] (x :: xs) placed).2 = true :=
        passAux_parentBefore (x :: xs).length (x :: xs) (Nat.le_refl _) [] placed hpb
      exact ih (passAux [] (x :: xs) placed).1 (passAux [] (x :: xs) placed).2
        (by simp at hlt hlen1 ⊢; omega) hperm2 hnoroot1 hpb1

end Projects

/-- C9: on every project listing whose parent chains resolve inside the
listing (what the target system returns), the hierarchy walk terminates
within its fuel bound and yields an order that is a permutation of the
listing — no project dropped — in which every project with a parent
appears after a project carrying that parent id. -/
theorem C9_hierarchy_walk_total_order (projects : List Projects.Project)
    (hforest : ∀ p ∈ projects, Projects.Rooted projects p) :
    ∃ out, Projects.tableau_projects_order projects = some out ∧
      List.Perm out projects ∧ Projects.parentBefore out = true := by
  unfold Projects.tableau_projects_order
  apply Projects.whileLoop_ok projects hforest
  · omega
  · have hsplit := List.filter_append_perm
      (fun p => decide (p.parent_id = none)) projects
    have hcongr : projects.filter (fun p => ¬ p.parent_id = none) =
        projects.filter (fun p => !(decide (p.parent_id = none))) :=
      List.filter_congr (fun a _ => by simp [decide_not])
    rw [hcongr]
    exact (List.perm_append_comm.trans hsplit)
  · intro p hp
    have := List.mem_filter.mp hp
    simpa using this.2
  · apply Projects.parentBeforeAux_roots
    intro p hp
    have := List.mem_filter.mp hp
    simpa using this.2

/-- Witness for C9: a three-level chain root, child, grandchild. -/
theorem C9_hierarchy_walk_total_order_witness :
    (∀ p ∈ Projects.demoProjects, Projects.Rooted Projects.demoProjects p) ∧
    (∃ out, Projects.tableau_projects_order Projects.demoProjects = some out ∧
      List.Perm out Projects.demoProjects ∧
      Projects.parentBefore out = true) := by
  have hyp : ∀ p ∈ Projects.demoProjects,
      Projects.Rooted Projects.demoProjects p := by
    intro p hp
    have hr : Projects.Rooted Projects.demoProjects
        { id := "r", parent_id := none } := Projects.Rooted.root _ rfl
    have hc : Projects.Rooted Projects.demoProjects
        { id := "c", parent_id := some "r" } :=
      Projects.Rooted.step _ { id := "r", parent_id := none }
        (by simp [Projects.demoProjects]) rfl hr
    have hd : Projects.Rooted Projects.demoProjects
        { id := "d", parent_id := some "c" } :=
      Projects.Rooted.step _ { id := "c", parent_id := some "r" }
        (by simp [Projects.demoProjects]) rfl hc
    simp only [Projects.demoProjects, List.mem_cons, List.mem_singleton] at hp
    rcases hp with rfl | rfl | hp
    · exact hr
    · exact hc
    · simp at hp
      rw [hp]
      exact hd
  exact ⟨hyp, C9_hierarchy_walk_total_order Projects.demoProjects hyp⟩
